import Mathlib

/-!
Verification of the SerialMonitor acquisition and windowing core.

Shallow embedding of the Rust sources:
- `src/serial_parser.rs` : schema-inferring line parser (`SerialParser`);
- `src/serial_reader.rs` : serial open validation and the background worker
  loop with its start-trigger state machine;
- `src/app.rs`           : sample-store append (`handle_input`, `read_input`);
- `src/ui.rs`            : continuous/cyclic windowing and the AutoMax
  auto-scale accumulator (`SerialMonitorUI::plot`).

Numeric values that are `f64` in the source are modelled as exact rationals
(`ℚ`); the claims under study concern control flow, set membership, counting
and order, none of which depends on floating-point rounding.
-/

/- The arithmetic of `ℚ` is used on concrete inputs throughout the
development (scenario evaluations); these core operations are
`@[irreducible]` upstream, which blocks `decide`.  Restoring the default
reducibility lets the kernel evaluate them. -/
attribute [local semireducible] Rat.add Rat.mul Rat.sub Rat.inv Rat.ofScientific

namespace SerialMonitor

/-! ## Schema parser (`src/serial_parser.rs`) -/

/-- Split a character list at every occurrence of the separator, keeping
empty segments, with the semantics of Rust `str::split(',')` (splitting the
empty string yields one empty segment). -/
def splitChar (sep : Char) : List Char → List (List Char)
  | [] => [[]]
  | c :: rest =>
    let r := splitChar sep rest
    if c = sep then [] :: r
    else
      match r with
      | [] => [[c]]
      | f :: fs => (c :: f) :: fs

/-- Strip leading and trailing whitespace, the semantics of Rust
`str::trim`. -/
def trimChars (cs : List Char) : List Char :=
  ((cs.dropWhile Char.isWhitespace).reverse.dropWhile Char.isWhitespace).reverse

/-- Numeric value of a list of decimal digit characters (most significant
first), as folded up by repeated multiplication by 10. -/
def digitsToNat (cs : List Char) : Nat :=
  cs.foldl (fun acc c => 10 * acc + (c.toNat - 48)) 0

/-- Models Rust `str::parse::<f64>` on plain decimal literals, idealized to
exact rationals: an optional sign, then digits with at most one decimal
point and at least one digit in total.  Exponents, `inf` and `NaN` are not
modelled (no claim exercises them); every non-literal string yields `none`,
matching the "field fails to parse" case of the source. -/
def parseNum (cs : List Char) : Option ℚ :=
  let sgn : ℚ := match cs with
    | '-' :: _ => -1
    | _ => 1
  let cs2 := match cs with
    | '-' :: rest => rest
    | '+' :: rest => rest
    | _ => cs
  let ip := cs2.takeWhile Char.isDigit
  let rest := cs2.drop ip.length
  match rest with
  | [] =>
    if ip.isEmpty then none
    else some (sgn * (digitsToNat ip : ℚ))
  | '.' :: fp =>
    if fp.all Char.isDigit && !(ip.isEmpty && fp.isEmpty) then
      some (sgn * ((digitsToNat ip : ℚ) + (digitsToNat fp : ℚ) / (10 ^ fp.length)))
    else none
  | _ => none

/-- The numeric fields of one input line, mirroring the loop of
`SerialParser::parse_values`: split on commas, trim each field, keep exactly
the fields that parse as numbers (others are silently skipped). -/
def parseFields (line : String) : List ℚ :=
  (splitChar ',' line.data).filterMap (fun col => parseNum (trimChars col))

/-- Mirrors `ParseError` from `src/serial_parser.rs`. -/
inductive ParseError where
  | columnMismatch (expected actual : Nat)
deriving DecidableEq, Repr

/-- Embeds `SerialParser::parse_values`.  The parser state is its single field
`columns : usize` (0 = no schema established).  Returns the new state and
the result: on a column-count mismatch the state is returned unchanged and
no values are produced; otherwise the field count is (re)stored as the
schema and the parsed tuple is returned. -/
def parseValues (columns : Nat) (line : String) : Nat × Except ParseError (List ℚ) :=
  let vals := parseFields line
  if columns ≠ 0 && columns ≠ vals.length then
    (columns, .error (.columnMismatch columns vals.length))
  else
    (vals.length, .ok vals)

/-- Embeds `SerialMonitorApp::handle_input`: grow the per-series store with empty
series until it is at least as long as the parsed tuple, then append
`(t, value_i)` to series `i` for each tuple index `i`; series beyond the
tuple length are left unchanged. -/
def handleInput (t : ℚ) : List ℚ → List (List (ℚ × ℚ)) → List (List (ℚ × ℚ))
  | [], store => store
  | v :: vs, [] => [(t, v)] :: handleInput t vs []
  | v :: vs, s :: rest => (s ++ [(t, v)]) :: handleInput t vs rest

/-- One accepted line of `SerialMonitorApp::read_input` (the not-paused Ok
branch): parse the content, on success append to the store, on mismatch
leave the store untouched and surface the error as a warning. -/
def stepInput (st : Nat × List (List (ℚ × ℚ))) (t : ℚ) (content : String) :
    (Nat × List (List (ℚ × ℚ))) × Option ParseError :=
  match parseValues st.1 content with
  | (cols, .ok vs) => ((cols, handleInput t vs st.2), none)
  | (cols, .error e) => ((cols, st.2), some e)

/-- Runs `read_input` over a whole batch of accepted lines, collecting the
warnings raised along the way. -/
def runInput (st : Nat × List (List (ℚ × ℚ))) :
    List (ℚ × String) → (Nat × List (List (ℚ × ℚ))) × List ParseError
  | [] => (st, [])
  | (t, content) :: rest =>
    let (st2, w) := stepInput st t content
    let (stF, ws) := runInput st2 rest
    (stF, w.toList ++ ws)

/-! ## Line reader worker (`src/serial_reader.rs`) -/

/-- Rust `str::ends_with`, via character-list suffix testing. -/
def strEndsWith (s p : String) : Bool :=
  p.data.isSuffixOf s.data

/-- Mirrors `StartMode` from `src/serial_reader.rs`; the delay duration is modelled
in seconds as an exact rational. -/
inductive StartMode where
  | immediate
  | delay (d : ℚ)
  | message (msg : String)
deriving DecidableEq, Repr

/-- Result of one `read_line` call as seen by the worker loop: `ok n` is a
framed record of `n` bytes before the newline, `err e` is any of the
failure strings `read_line` produces (I/O failure, zero-byte read, invalid
byte). -/
inductive ReadRes where
  | ok (n : Nat)
  | err (e : String)
deriving DecidableEq, Repr

/-- One iteration's inputs to the worker loop body: the `read_line` result,
the trimmed buffer content (`line_buf.trim()`, meaningful even on a failed
read), and the elapsed time `start_time.elapsed()` in seconds. -/
structure Event where
  res : ReadRes
  line : String
  t : ℚ
deriving DecidableEq, Repr

/-- One element of the shared line queue:
`Ok(Line { t, content })` or `Err(SerialError::ReadError(e))`. -/
inductive QItem where
  | line (t : ℚ) (content : String)
  | readError (e : String)
deriving DecidableEq, Repr

/-- Holds when `ev.res` is a successful read of a non-empty record (`Ok(n)`, `n > 0`),
the only case in which the worker enqueues a `Line`. -/
def okPos (ev : Event) : Prop :=
  ∃ n, ev.res = ReadRes.ok (n + 1)

instance (ev : Event) : Decidable (okPos ev) :=
  match h : ev.res with
  | .ok 0 => .isFalse (by simp [okPos, h])
  | .ok (n + 1) => .isTrue ⟨n, h⟩
  | .err _ => .isFalse (by simp [okPos, h])

/-- The worker loop of `SerialReader::begin_read`, lines 172–215 of
`src/serial_reader.rs`, driven by the list of per-iteration read events.
`started` is the trigger flag.  Exactly as in the source, each iteration
first updates/queries the trigger:
* `Immediate`: always started;
* `Delay(d)`: started once `t >= delay` (sticky via `|=`);
* `Message(msg)`: `started |= line.ends_with(msg)`, and if the iteration
  began untriggered (`was_started` false) it `continue`s — so the
  triggering record itself is discarded, and so is any read failure seen on
  that iteration.
An untriggered iteration `continue`s; a triggered one then matches the read
result: `Ok(0)` breaks silently, `Ok(n+1)` enqueues
`Line { t - start_off, content }`, `Err(e)` enqueues the error and breaks. -/
def workerGo (mode : StartMode) (startOff : ℚ) (started : Bool) : List Event → List QItem
  | [] => []
  | ev :: rest =>
    let s : Bool :=
      match mode with
      | .immediate => true
      | .delay d => started || decide (d ≤ ev.t)
      | .message msg => started || strEndsWith ev.line msg
    let keep : Bool :=
      match mode with
      | .message _ => started
      | _ => s
    if keep then
      match ev.res with
      | .ok 0 => []
      | .ok (_ + 1) => QItem.line (ev.t - startOff) ev.line :: workerGo mode startOff s rest
      | .err e => [QItem.readError e]
    else
      workerGo mode startOff s rest

/-- The whole worker run: `start_off` is the delay duration (0 otherwise)
and the trigger starts fired only for `Immediate`
(`matches!(start_mode, StartMode::Immediate)`). -/
def workerRun (mode : StartMode) (evs : List Event) : List QItem :=
  workerGo mode
    (match mode with | .delay d => d | _ => 0)
    (match mode with | .immediate => true | _ => false)
    evs

/-- One underlying `port.read` call on a one-byte buffer: the bytes read
(possibly none), or an I/O error. -/
inductive PortRead where
  | bytes (bs : List Nat)
  | fail (e : String)
deriving DecidableEq, Repr

/-- Embeds `read_line` from `src/serial_reader.rs` lines 247–265, consuming
one-byte port reads until a newline: a read of anything other than exactly
one byte errors with "Unexpected byte amount!", a byte that is no valid
character errors with "Byte is not a valid ASCII character!", a newline
returns the count of preceding bytes.  Consumption of the port is modelled
by recursion over the list of pending reads; an exhausted list means the
port would block, modelled as an I/O error. -/
def readLineGo : List PortRead → Nat → List Char →
    Except String (Nat × List Char) × List PortRead
  | [], _, _ => (.error "timed out", [])
  | .fail e :: rest, _, _ => (.error e, rest)
  | .bytes bs :: rest, nread, acc =>
    match bs with
    | [b] =>
      if h : b.isValidChar then
        let c := Char.ofNatAux b h
        if c = '\n' then (.ok (nread, acc), rest)
        else readLineGo rest (nread + 1) (acc ++ [c])
      else (.error "Byte is not a valid ASCII character!", rest)
    | _ => (.error "Unexpected byte amount!", rest)

/-! ## Serial open validation (`SerialReader::open`) -/

/-- Mirrors `SerialError` from `src/serial_reader.rs`. -/
inductive SerialErr where
  | unsupportedDataBits (b : Nat)
  | unsupportedStopBits (b : Nat)
  | openError (e : String)
  | writeDtrError
  | portNotOpen
  | alreadyOpen
  | alreadyReading
  | readError (e : String)
deriving DecidableEq, Repr

/-- Mirrors `Parity` from `src/serial_reader.rs`. -/
inductive Parity where
  | none
  | odd
  | even
deriving DecidableEq, Repr

/-- Mirrors `FlowCtrl` from `src/serial_reader.rs`. -/
inductive FlowCtrl where
  | none
  | software
  | hardware
deriving DecidableEq, Repr

/-- The fields of `SerialConfig` that `open` validates or dispatches on
(port name, baud rate and timeout are passed through to the device and do
not affect the modelled control flow). -/
structure SerialCfg where
  dataBits : Nat
  parity : Parity
  stopBits : Nat
  flowCtrl : FlowCtrl
deriving DecidableEq, Repr

/-- Outcome of the device-side effects of `open`: the underlying
`serialport::open` and the subsequent `write_data_terminal_ready` call. -/
inductive DevOutcome where
  | opened
  | openFail (e : String)
  | dtrFail
deriving DecidableEq, Repr

/-- The `SerialReader` ownership state observable through `is_open`:
whether a port handle is held and whether a worker thread is running. -/
structure ReaderState where
  portHeld : Bool
  workerRunning : Bool
deriving DecidableEq, Repr

/-- Embeds `SerialReader::is_open`: `self.port.is_some() || self.worker_thread.is_some()`. -/
def ReaderState.isOpen (r : ReaderState) : Bool :=
  r.portHeld || r.workerRunning

/-- Embeds `SerialReader::open` (`src/serial_reader.rs` lines 112–150).  The
builder matches on `data_bits` (supported arms 5, 6, 7, 8) and on
`stop_bits` (supported arms 1, 2), returning the corresponding
`Unsupported…` error from the catch-all arm; these checks happen while
building the port settings, before the device is touched, so the
`DevOutcome` oracle is consulted only after both pass.  On any error the
state is unchanged (`self.port` is only assigned on full success). -/
def openReader (r : ReaderState) (_dtr : Bool) (cfg : SerialCfg) (dev : DevOutcome) :
    ReaderState × Except SerialErr Unit :=
  if r.isOpen then (r, .error .alreadyOpen)
  else if ¬(cfg.dataBits = 5 ∨ cfg.dataBits = 6 ∨ cfg.dataBits = 7 ∨ cfg.dataBits = 8) then
    (r, .error (.unsupportedDataBits cfg.dataBits))
  else if ¬(cfg.stopBits = 1 ∨ cfg.stopBits = 2) then
    (r, .error (.unsupportedStopBits cfg.stopBits))
  else
    match dev with
    | .opened => ({ r with portHeld := true }, .ok ())
    | .openFail e => (r, .error (.openError e))
    | .dtrFail => (r, .error .writeDtrError)

/-! ## Windowing and auto-scale (`SerialMonitorUI::plot`, `src/ui.rs`) -/

/-- Truncation toward zero, the semantics of Rust `f64::trunc`. -/
def qtrunc (a : ℚ) : ℚ :=
  if 0 ≤ a then (⌊a⌋ : ℚ) else (⌈a⌉ : ℚ)

/-- Rust's `%` on floats: the remainder `a - b * (a / b).trunc()`, with the
sign of the dividend. -/
def fmod (a b : ℚ) : ℚ :=
  a - b * qtrunc (a / b)

/-- Computes `values.last().unwrap_or(&[0.0, 0.0])[0]`: the t_now of the code, the time
of the last stored sample (0 for an empty series). -/
def tNowOf (values : List (ℚ × ℚ)) : ℚ :=
  ((values.getLast?).getD (0, 0)).1

/-- The `PlotMode::Continous` arm of the windowing filter: every sample
with `t_now - t <= window`. -/
def continuousWindow (w : ℚ) (values : List (ℚ × ℚ)) : List (ℚ × ℚ) :=
  values.filter (fun n => decide (tNowOf values - n.1 ≤ w))

/-- The `PlotMode::Cyclic` arm of the windowing filter
(`src/ui.rs` lines 411–422): with `sub = t_now % w`, `split = t_now - sub`
and `start = split - (w - sub)`, keep the samples with `t > split` at their
original time and append the samples with `start <= t < split` remapped to
`t + w`. -/
def cyclicWindow (w : ℚ) (values : List (ℚ × ℚ)) : List (ℚ × ℚ) :=
  let tNow := tNowOf values
  let sub := fmod tNow w
  let split := tNow - sub
  let start := split - (w - sub)
  values.filter (fun n => decide (split < n.1)) ++
    (values.filter (fun n => decide (start ≤ n.1) && decide (n.1 < split))).map
      (fun n => (n.1 + w, n.2))

/-- Mirrors `PlotMode` from `src/data.rs` (spelling of the source). -/
inductive PlotMode where
  | continous
  | cyclic
deriving DecidableEq, Repr

/-- The per-series visible subset by plot mode. -/
def windowFilter (mode : PlotMode) (w : ℚ) (values : List (ℚ × ℚ)) : List (ℚ × ℚ) :=
  match mode with
  | .continous => continuousWindow w values
  | .cyclic => cyclicWindow w values

/-- The fold
`filtered.iter().fold((f64::MAX, f64::MIN), |(min, max), n| ...)` computing
the value range of one filtered series; `f64::MAX` / `f64::MIN` act as
absorbing start elements and are modelled as `⊤ : WithTop ℚ` and
`⊥ : WithBot ℚ`. -/
def foldMinMax (vals : List ℚ) : WithTop ℚ × WithBot ℚ :=
  vals.foldl (fun p v => (min p.1 (v : WithTop ℚ), max p.2 (v : WithBot ℚ))) (⊤, ⊥)

/-- The per-query visible range of one plot in AutoMax mode: over the
(hidden?, series) pairs, skip hidden series and merge the value range of
each visible series' windowed subset (the `min = f64::min(min, local_min)`
/ `max = f64::max(max, local_max)` merge of the source). -/
def plotVisMinMax (mode : PlotMode) (w : ℚ) (series : List (Bool × List (ℚ × ℚ))) :
    WithTop ℚ × WithBot ℚ :=
  series.foldl
    (fun p sv =>
      if sv.1 then p
      else
        let r := foldMinMax ((windowFilter mode w sv.2).map Prod.snd)
        (min p.1 r.1, max p.2 r.2))
    (⊤, ⊥)

/-- One AutoMax accumulator update (`src/ui.rs` lines 457–463): fetch the
`plot_ranges` entry for this plot, inserting the query's `[min, max]` if
vacant, then merge elementwise (`entry[0] = f64::min(entry[0], min)`,
`entry[1] = f64::max(entry[1], max)`). -/
def accUpdate (acc : Option (WithTop ℚ × WithBot ℚ)) (q : WithTop ℚ × WithBot ℚ) :
    WithTop ℚ × WithBot ℚ :=
  match acc with
  | some e => (min e.1 q.1, max e.2 q.2)
  | none => (min q.1 q.1, max q.2 q.2)

/-- A sequence of AutoMax queries folded into the accumulator; `none` is
the state right after `plot_ranges.remove(&plot.id)` (plot reset) or before
the first query. -/
def runQueries (acc : Option (WithTop ℚ × WithBot ℚ)) :
    List (WithTop ℚ × WithBot ℚ) → Option (WithTop ℚ × WithBot ℚ)
  | [] => acc
  | q :: qs => runQueries (some (accUpdate acc q)) qs

/-! ## Concrete scenarios from the specification -/

/-- Scenario A input batch: three timestamped lines as fed to
`read_input`. -/
def scenarioA : List (ℚ × String) :=
  [(0, "1.0, 2.0"), (1, "1.5, 2.5"), (2, "2.0, bad")]

/-- Scenario B worker events: successful non-empty reads at elapsed times
0.5 s, 1.2 s and 1.8 s. -/
def scenarioB : List Event :=
  [⟨.ok 1, "a0", 1/2⟩, ⟨.ok 1, "a", 6/5⟩, ⟨.ok 1, "b", 9/5⟩]

/-- Scenario C history: one sample per second with `t = v` spanning
`t = 0 .. 24` seconds. -/
def sweepHistory : List (ℚ × ℚ) :=
  (List.range 25).map (fun i => ((i : ℚ), (i : ℚ)))

/-- Specification-side restatement of the `Message(msg)` trigger (§4.1
step 3 of the spec): records are dropped until one whose trimmed content
ends with `msg` is observed; that record is itself dropped and every later
record is reported at its raw elapsed time.  Stated to be compared against
the embedded worker loop. -/
def messageTriggerSpec (msg : String) : List Event → List QItem
  | [] => []
  | ev :: rest =>
    if strEndsWith ev.line msg then rest.map (fun e => QItem.line e.t e.line)
    else messageTriggerSpec msg rest

/-! ## Theorems -/

/-- Helper: a line whose numeric field count is zero has no numeric
fields. -/
theorem parseFields_nil_of_length_zero (line : String)
    (h : (parseFields line).length = 0) : parseFields line = [] :=
  List.length_eq_zero.mp h

/-- C6.  Schema enforcement: a first parsed line with `K > 0` numeric
fields fixes the schema to `K`; with schema `N > 0` established, a line
with `M ≠ N` numeric fields returns `ColumnMismatch(N, M)`, leaves the
schema at `N` and appends to no series; on scenario A the third line yields
`ColumnMismatch(2, 1)` and the store keeps only the two samples per series
appended by the first two lines. -/
theorem schema_enforcement
    (line0 : String) (K : Nat) (hK : (parseFields line0).length = K) (hKpos : 0 < K)
    (N M : Nat) (line : String) (hNpos : 0 < N) (hM : (parseFields line).length = M)
    (hMN : M ≠ N) (vals : List (List (ℚ × ℚ))) (t : ℚ) :
    parseValues 0 line0 = (K, .ok (parseFields line0)) ∧
    parseValues N line = (N, .error (.columnMismatch N M)) ∧
    stepInput (N, vals) t line = ((N, vals), some (.columnMismatch N M)) ∧
    runInput (0, []) scenarioA
      = ((2, [[(0, 1), (1, 3/2)], [(0, 2), (1, 5/2)]]), [.columnMismatch 2 1]) := by
  have hmm : parseValues N line = (N, .error (.columnMismatch N M)) := by
    simp [parseValues, hM, Nat.pos_iff_ne_zero.mp hNpos, Ne.symm hMN]
  refine ⟨by simp [parseValues, hK], hmm, ?_, by decide⟩
  simp [stepInput, hmm]

/-- Witness for C6 at scenario A's concrete lines. -/
theorem schema_enforcement_witness :
    runInput (0, []) scenarioA
      = ((2, [[(0, 1), (1, 3/2)], [(0, 2), (1, 5/2)]]), [.columnMismatch 2 1]) :=
  (schema_enforcement "1.0, 2.0" 2 (by decide) (by decide)
    2 1 "2.0, bad" (by decide) (by decide) (by decide) [] 0).2.2.2

/-- C9.  A first parsed line with zero numeric fields returns `Ok` with the
empty tuple and leaves the schema unestablished (still 0); any subsequent
line is then adopted as the schema (in particular a positive count) without
error; and `ColumnMismatch(expected, actual)` only ever carries
`expected > 0`. -/
theorem schema_zero_fields
    (line : String) (h0 : (parseFields line).length = 0)
    (line2 lineX : String) (st e a : Nat)
    (herr : (parseValues st lineX).2 = .error (.columnMismatch e a)) :
    parseValues 0 line = (0, .ok []) ∧
    parseValues 0 line2 = ((parseFields line2).length, .ok (parseFields line2)) ∧
    0 < e := by
  refine ⟨?_, by simp [parseValues], ?_⟩
  · have := parseFields_nil_of_length_zero line h0
    simp [parseValues, this]
  · simp only [parseValues] at herr
    split at herr
    · rename_i hcond
      simp only [Bool.and_eq_true, decide_eq_true_eq] at hcond
      simp only [Except.error.injEq, ParseError.columnMismatch.injEq] at herr
      omega
    · simp at herr

/-- Witness for C9: "bad" has no numeric fields and leaves the schema at 0,
"7" is then adopted as a one-column schema, and the scenario A mismatch
carries the positive expected count 2. -/
theorem schema_zero_fields_witness :
    parseValues 0 "bad" = (0, .ok []) ∧
    parseValues 0 "7" = ((parseFields "7").length, .ok (parseFields "7")) ∧
    0 < 2 :=
  schema_zero_fields "bad" (by decide) "7" "2.0, bad" 2 2 1 rfl

/-- Helper: the empty string is a suffix of every line, so
`line.ends_with("")` always holds. -/
theorem strEndsWith_empty (l : String) : strEndsWith l "" = true := by
  simp [strEndsWith, List.isSuffixOf]

/-- Helper: once the trigger flag is set, every remaining successful
non-empty read is enqueued with the adjusted timestamp `t - startOff`,
under every start mode. -/
theorem workerGo_started (mode : StartMode) (off : ℚ) (evs : List Event)
    (hok : ∀ ev ∈ evs, okPos ev) :
    workerGo mode off true evs
      = evs.map (fun ev => QItem.line (ev.t - off) ev.line) := by
  induction evs with
  | nil => rfl
  | cons ev rest ih =>
    obtain ⟨n, hn⟩ := hok ev (List.mem_cons_self ev rest)
    have hrest : ∀ e ∈ rest, okPos e := fun e he => hok e (List.mem_cons_of_mem ev he)
    cases mode <;> simp [workerGo, hn, ih hrest]

/-- Helper: with the `Delay` trigger still unfired, and only successful
non-empty reads arriving at non-decreasing times, the queue receives
exactly the records read at elapsed time `≥ d`, timestamped `t - off`. -/
theorem workerGo_delay_untriggered (d off : ℚ) (evs : List Event)
    (hok : ∀ ev ∈ evs, okPos ev)
    (hmono : evs.Pairwise (fun a b => a.t ≤ b.t)) :
    workerGo (.delay d) off false evs
      = (evs.filter (fun ev => decide (d ≤ ev.t))).map
          (fun ev => QItem.line (ev.t - off) ev.line) := by
  induction evs with
  | nil => rfl
  | cons ev rest ih =>
    obtain ⟨n, hn⟩ := hok ev (List.mem_cons_self ev rest)
    have hrest : ∀ e ∈ rest, okPos e := fun e he => hok e (List.mem_cons_of_mem ev he)
    by_cases hd : d ≤ ev.t
    · have hall : List.filter (fun e => decide (d ≤ e.t)) rest = rest :=
        List.filter_eq_self.mpr fun e he =>
          decide_eq_true (le_trans hd (List.rel_of_pairwise_cons hmono he))
      simp [workerGo, hd, hn, workerGo_started _ _ _ hrest, hall]
    · simp [workerGo, hd, ih hrest hmono.of_cons]

/-- C4.  Under `Delay(D)` with monotone read times and only successful
non-empty reads, the enqueued lines are exactly those read at raw elapsed
time `≥ D`, each carrying the adjusted timestamp `t - D`; hence every
enqueued timestamp is `≥ 0`.  On scenario B (`D` = 1 s, reads at 0.5 s,
1.2 s, 1.8 s) exactly the last two lines are enqueued, at 0.2 s and
0.8 s. -/
theorem delay_trigger_lines (D : ℚ) (evs : List Event)
    (hok : ∀ ev ∈ evs, okPos ev)
    (hmono : evs.Pairwise (fun a b => a.t ≤ b.t)) :
    workerRun (.delay D) evs
      = (evs.filter (fun ev => decide (D ≤ ev.t))).map
          (fun ev => QItem.line (ev.t - D) ev.line) ∧
    (∀ t c, QItem.line t c ∈ workerRun (.delay D) evs → 0 ≤ t) ∧
    workerRun (.delay 1) scenarioB
      = [QItem.line (1/5) "a", QItem.line (4/5) "b"] := by
  have hrun := workerGo_delay_untriggered D D evs hok hmono
  refine ⟨hrun, ?_, by decide⟩
  intro t c hmem
  rw [show workerRun (.delay D) evs = workerGo (.delay D) D false evs from rfl,
    hrun] at hmem
  obtain ⟨ev, hev, heq⟩ := List.mem_map.mp hmem
  obtain ⟨-, hevd⟩ := List.mem_filter.mp hev
  have : D ≤ ev.t := of_decide_eq_true hevd
  have ht : t = ev.t - D := by cases heq; rfl
  rw [ht]
  exact sub_nonneg.mpr this

/-- Witness for C4 at scenario B. -/
theorem delay_trigger_lines_witness :
    workerRun (.delay 1) scenarioB
      = [QItem.line (1/5) "a", QItem.line (4/5) "b"] :=
  (delay_trigger_lines 1 scenarioB (by decide) (by decide)).2.2

/-- Helper: an iteration that begins with the `Message` trigger unfired
`continue`s after updating the flag to whether this record's content ends
with the trigger text. -/
theorem workerGo_message_step (msg : String) (off : ℚ) (ev : Event) (rest : List Event) :
    workerGo (.message msg) off false (ev :: rest)
      = workerGo (.message msg) off (strEndsWith ev.line msg) rest := by
  simp [workerGo]

/-- C5.  The embedded worker under `Message(msg)`, fed only successful
non-empty reads, refines the specification's trigger description: nothing
is enqueued until some record's trimmed content ends with `msg`, that
triggering record is itself dropped, and every subsequent record is
enqueued (at its raw elapsed time, the `Message` mode having a zero
timestamp offset) — in particular the trigger, once fired, stays fired. -/
theorem message_trigger_refines (msg : String) (evs : List Event)
    (hok : ∀ ev ∈ evs, okPos ev) :
    workerRun (.message msg) evs = messageTriggerSpec msg evs := by
  induction evs with
  | nil => rfl
  | cons ev rest ih =>
    have hrest : ∀ e ∈ rest, okPos e := fun e he => hok e (List.mem_cons_of_mem ev he)
    rw [show workerRun (.message msg) (ev :: rest)
        = workerGo (.message msg) 0 false (ev :: rest) from rfl,
      workerGo_message_step]
    by_cases hend : strEndsWith ev.line msg
    · rw [hend, workerGo_started _ _ _ hrest]
      simp [messageTriggerSpec, hend]
    · rw [Bool.of_not_eq_true hend]
      simp [messageTriggerSpec, hend]
      exact ih hrest

/-- Witness for C5: with trigger text "go", a run whose second record ends
with "go" reports exactly the records after it. -/
theorem message_trigger_refines_witness :
    workerRun (.message "go") [⟨.ok 1, "a", 1⟩, ⟨.ok 1, "xgo", 2⟩, ⟨.ok 1, "b", 3⟩]
      = [QItem.line 3 "b"] := by
  rw [message_trigger_refines "go"
    [⟨.ok 1, "a", 1⟩, ⟨.ok 1, "xgo", 2⟩, ⟨.ok 1, "b", 3⟩] (by decide)]
  decide

/-- C10.  Under `Message("")` every trimmed line ends with the empty
trigger text, so the very first record fires the trigger and is itself
discarded — whatever its read result — and enqueueing starts with the
second record. -/
theorem message_empty_trigger (ev : Event) (evs : List Event)
    (hok : ∀ e ∈ evs, okPos e) :
    workerRun (.message "") (ev :: evs)
      = evs.map (fun e => QItem.line e.t e.line) := by
  rw [show workerRun (.message "") (ev :: evs)
      = workerGo (.message "") 0 false (ev :: evs) from rfl,
    workerGo_message_step, strEndsWith_empty, workerGo_started _ _ _ hok]
  simp

/-- Witness for C10: even a first record that itself failed to read is
silently consumed as the trigger. -/
theorem message_empty_trigger_witness :
    workerRun (.message "") [⟨.err "boom", "", 1⟩, ⟨.ok 1, "x", 2⟩]
      = [QItem.line 2 "x"] := by
  rw [message_empty_trigger ⟨.err "boom", "", 1⟩ [⟨.ok 1, "x", 2⟩] (by decide)]
  decide

/-- C3 counterexample.  A read failure that occurs before a `Delay(1 s)`
trigger has fired (at elapsed 0.5 s) is not enqueued and does not stop the
loop: the run's queue holds only the later successful line, no error — the
conjunct on `readLineGo` records that a zero-byte underlying read is one
source of such a failure. -/
theorem read_failure_before_trigger_swallowed :
    workerRun (.delay 1) [⟨.err "boom", "", 1/2⟩, ⟨.ok 1, "x", 2⟩]
      = [QItem.line 1 "x"] ∧
    QItem.readError "boom" ∉ workerRun (.delay 1) [⟨.err "boom", "", 1/2⟩, ⟨.ok 1, "x", 2⟩] ∧
    readLineGo [PortRead.bytes []] 0 [] = (.error "Unexpected byte amount!", []) :=
  ⟨by decide, by decide, rfl⟩

/-- C3 as amended.  A read failure is enqueued exactly once and terminates
the loop only when the iteration is triggered (always under `Immediate`,
and once the sticky flag holds under the other modes); a failure observed
while the `Delay` trigger has not yet fired, or while the `Message` trigger
is still unfired, is silently discarded and the loop continues (for
`Message`, still recording whether this record's content fired the
trigger). -/
theorem read_failure_handling (mode : StartMode) (off : ℚ) (e l : String) (t : ℚ)
    (rest : List Event) :
    workerGo mode off true (⟨.err e, l, t⟩ :: rest) = [QItem.readError e] ∧
    (∀ d, t < d → workerGo (.delay d) off false (⟨.err e, l, t⟩ :: rest)
        = workerGo (.delay d) off false rest) ∧
    (∀ m, workerGo (.message m) off false (⟨.err e, l, t⟩ :: rest)
        = workerGo (.message m) off (strEndsWith l m) rest) := by
  refine ⟨?_, ?_, fun m => workerGo_message_step m off _ rest⟩
  · cases mode <;> simp [workerGo]
  · intro d hd
    simp [workerGo, not_le.mpr hd]

/-- Witness for C3's amended statement: a failure at elapsed 0.5 s under a
1 s delay leaves the remaining (empty) run untouched, and a triggered
failure under `Immediate` yields exactly the one error. -/
theorem read_failure_handling_witness :
    workerGo (.delay 1) 1 false [⟨.err "boom", "", 1/2⟩]
      = workerGo (.delay 1) 1 false [] ∧
    workerGo .immediate 0 true [⟨.err "boom", "", 1/2⟩] = [QItem.readError "boom"] :=
  ⟨(read_failure_handling .immediate 1 "boom" "" (1/2) []).2.1 1 (by decide),
    (read_failure_handling .immediate 0 "boom" "" (1/2) []).1⟩

/-- C8 counterexample.  A configuration asking for 9 data bits — inside
the claimed supported range 5–9 — is rejected with
`UnsupportedDataBits(9)` even on a device that would open fine: the code
supports only 5–8. -/
theorem open_nine_data_bits_rejected :
    openReader ⟨false, false⟩ true ⟨9, .none, 1, .none⟩ .opened
      = (⟨false, false⟩, .error (.unsupportedDataBits 9)) ∧
    (5 ≤ 9 ∧ 9 ≤ 9) :=
  ⟨rfl, by decide⟩

/-- C8 as amended.  On a reader that is not open: the call fails with
`UnsupportedDataBits` exactly when the configured data bits lie outside the
supported range 5–8 (not 5–9), and with `UnsupportedStopBits` exactly when
the data bits are supported but the stop bits lie outside 1–2 (the data
bits check has precedence); both checks are decided before any device I/O,
so their outcome is independent of the device; and after any failing call
the reader still holds no handle (`is_open()` stays false). -/
theorem open_validation (r : ReaderState) (dtr : Bool) (cfg : SerialCfg) (dev : DevOutcome)
    (hr : r.isOpen = false) :
    ((openReader r dtr cfg dev).2 = .error (.unsupportedDataBits cfg.dataBits) ↔
        ¬(5 ≤ cfg.dataBits ∧ cfg.dataBits ≤ 8)) ∧
    ((openReader r dtr cfg dev).2 = .error (.unsupportedStopBits cfg.stopBits) ↔
        ((5 ≤ cfg.dataBits ∧ cfg.dataBits ≤ 8) ∧ ¬(cfg.stopBits = 1 ∨ cfg.stopBits = 2))) ∧
    (¬(5 ≤ cfg.dataBits ∧ cfg.dataBits ≤ 8) ∨ ¬(cfg.stopBits = 1 ∨ cfg.stopBits = 2) →
        ∀ dev2, openReader r dtr cfg dev = openReader r dtr cfg dev2) ∧
    (∀ e, (openReader r dtr cfg dev).2 = .error e →
        (openReader r dtr cfg dev).1.isOpen = false) := by
  have hdb : (cfg.dataBits = 5 ∨ cfg.dataBits = 6 ∨ cfg.dataBits = 7 ∨ cfg.dataBits = 8) ↔
      (5 ≤ cfg.dataBits ∧ cfg.dataBits ≤ 8) := by omega
  by_cases h1 : cfg.dataBits = 5 ∨ cfg.dataBits = 6 ∨ cfg.dataBits = 7 ∨ cfg.dataBits = 8
  · by_cases h2 : cfg.stopBits = 1 ∨ cfg.stopBits = 2
    · refine ⟨?_, ?_, ?_, ?_⟩
      · simp only [openReader, hr, Bool.false_eq_true, if_false, h1, h2, not_true_eq_false,
          if_false, hdb.mp h1, iff_false, not_not]
        cases dev <;> simp [hdb.mp h1]
      · simp only [openReader, hr, Bool.false_eq_true, if_false, h1, h2, not_true_eq_false,
          if_false]
        cases dev <;> simp [hdb.mp h1, h2]
      · intro hbad
        rcases hbad with hbad | hbad
        · exact absurd (hdb.mp h1) hbad
        · exact absurd h2 hbad
      · intro e he
        simp only [openReader, hr, Bool.false_eq_true, if_false, h1, h2, not_true_eq_false,
          if_false] at he ⊢
        cases dev <;> simp_all [ReaderState.isOpen]
    · have : openReader r dtr cfg dev = (r, .error (.unsupportedStopBits cfg.stopBits)) := by
        simp [openReader, hr, h1, h2]
      refine ⟨?_, ?_, ?_, ?_⟩
      · simp [this, hdb.mp h1]
      · simp [this, hdb.mp h1, h2]
      · intro _ dev2
        rw [this]
        simp [openReader, hr, h1, h2]
      · intro e _
        simp [this, hr]
  · have : openReader r dtr cfg dev = (r, .error (.unsupportedDataBits cfg.dataBits)) := by
      simp [openReader, hr, h1]
    refine ⟨?_, ?_, ?_, ?_⟩
    · simp [this, hdb.not.mp h1]
    · simp [this, hdb.not.mp h1]
    · intro _ dev2
      rw [this]
      simp [openReader, hr, h1]
    · intro e _
      simp [this, hr]

/-- Witness for C8's amended statement: 3 stop bits with valid data bits
are rejected as `UnsupportedStopBits(3)`. -/
theorem open_validation_witness :
    (openReader ⟨false, false⟩ true ⟨5, .none, 3, .none⟩ .opened).2
      = .error (.unsupportedStopBits 3) :=
  (open_validation ⟨false, false⟩ true ⟨5, .none, 3, .none⟩ .opened rfl).2.1.mpr
    (by decide)

/-- C1.  Cyclic windowing membership: for a window `w > 0` over a
non-empty history whose last sample carries the latest time (the code's
`t_now`), with `sub = t_now % w`, `split = t_now - sub` and
`start = split - (w - sub)`, a point is visible exactly when it is a
history sample with `t > split` kept at its original time, or the `t + w`
remap of a history sample with `t ∈ [start, split)`. -/
theorem cyclic_window_membership (w : ℚ) (values : List (ℚ × ℚ)) (hw : 0 < w)
    (hne : values ≠ [])
    (hlast : ∀ q ∈ values, q.1 ≤ tNowOf values) :
    ∀ p : ℚ × ℚ,
      p ∈ cyclicWindow w values ↔
        ((p ∈ values ∧ tNowOf values - fmod (tNowOf values) w < p.1) ∨
         (∃ q ∈ values,
            ((tNowOf values - fmod (tNowOf values) w) - (w - fmod (tNowOf values) w) ≤ q.1 ∧
              q.1 < tNowOf values - fmod (tNowOf values) w) ∧
            p = (q.1 + w, q.2))) := by
  intro p
  simp only [cyclicWindow, List.mem_append, List.mem_filter, List.mem_map,
    decide_eq_true_eq, Bool.and_eq_true]
  constructor
  · rintro (⟨hp, hgt⟩ | ⟨q, ⟨hq, hq1, hq2⟩, rfl⟩)
    · exact Or.inl ⟨hp, hgt⟩
    · exact Or.inr ⟨q, hq, ⟨hq1, hq2⟩, rfl⟩
  · rintro (⟨hp, hgt⟩ | ⟨q, hq, ⟨hq1, hq2⟩, rfl⟩)
    · exact Or.inl ⟨hp, hgt⟩
    · exact Or.inr ⟨q, ⟨hq, hq1, hq2⟩, rfl⟩

/-- Witness for C1 on the scenario C history: the sample at `t = 21`
(past the sweep boundary `split = 20`) is visible at its original time. -/
theorem cyclic_window_membership_witness :
    ((21 : ℚ), (21 : ℚ)) ∈ cyclicWindow 10 sweepHistory :=
  (cyclic_window_membership 10 sweepHistory (by decide) (by decide)
      (by decide) ((21 : ℚ), (21 : ℚ))).mpr
    (Or.inl (by decide))

/-- C2 counterexample.  For `w = 10` over the `t = 0..24` history the code
computes `split = 20`, not 22: the sample at `t = 21` — which the claim
(placing it in `[14, 22)`) would remap to 31 — is visible at its original
time 21, and no point at time 31 is visible. -/
theorem cyclic_scenario_mismatch :
    ((21 : ℚ), (21 : ℚ)) ∈ cyclicWindow 10 sweepHistory ∧
    ¬((22 : ℚ) < 21) ∧
    ((14 : ℚ) ≤ 21 ∧ (21 : ℚ) < 22) ∧
    ((31 : ℚ), (21 : ℚ)) ∉ cyclicWindow 10 sweepHistory := by
  refine ⟨by decide, by decide, by decide, by decide⟩

/-- C2 as amended.  Querying the cyclic window `w = 10` on the `t = 0..24`
history (so `t_now = 24`, `sub = 4`, `split = 20`, `start = 14`) returns
exactly the points with original time in `(20, 24]` at their original
times, followed by the points with original time in `[14, 20)` remapped to
`[24, 30)`. -/
theorem cyclic_scenario_c :
    cyclicWindow 10 sweepHistory
      = [(21, 21), (22, 22), (23, 23), (24, 24),
         (24, 14), (25, 15), (26, 16), (27, 17), (28, 18), (29, 19)] := by
  decide

/-- C7.  AutoMax accumulator monotonicity: over any sequence of per-query
visible ranges merged into an existing accumulator entry, the stored
minimum never increases and the stored maximum never decreases; and
immediately after a reset (vacant entry) the accumulator restarts as
exactly the next query's visible range. -/
theorem automax_accumulator (a : WithTop ℚ) (b : WithBot ℚ)
    (qs : List (WithTop ℚ × WithBot ℚ)) (a2 : WithTop ℚ) (b2 : WithBot ℚ)
    (hrun : runQueries (some (a, b)) qs = some (a2, b2)) :
    (a2 ≤ a ∧ b ≤ b2) ∧
    (∀ mode w series,
        accUpdate none (plotVisMinMax mode w series) = plotVisMinMax mode w series) := by
  refine ⟨?_, fun mode w series => by simp [accUpdate]⟩
  induction qs generalizing a b with
  | nil =>
    simp only [runQueries, Option.some.injEq, Prod.mk.injEq] at hrun
    exact ⟨hrun.1 ▸ le_refl _, hrun.2 ▸ le_refl _⟩
  | cons q rest ih =>
    rw [show runQueries (some (a, b)) (q :: rest)
        = runQueries (some (accUpdate (some (a, b)) q)) rest from rfl] at hrun
    have := ih (min a q.1) (max b q.2) hrun
    exact ⟨le_trans this.1 (min_le_left _ _), le_trans (le_max_left _ _) this.2⟩

/-- Witness for C7: merging a query range `(1, 6)` into the accumulator
entry `(2, 5)` yields `(1, 6)`, which has not narrowed. -/
theorem automax_accumulator_witness :
    (1 : WithTop ℚ) ≤ 2 ∧ (5 : WithBot ℚ) ≤ 6 :=
  (automax_accumulator 2 5 [(1, 6)] 1 6 rfl).1

end SerialMonitor
